import Mathlib

/-!
Shallow embedding of the toy-spice circuit simulator core (Go sources under
`src/`), restricted to the parts needed by the claims: device stamping
(inductor and capacitor), result publication, the Newton-Raphson convergence
check, the AC frequency-grid and DC-sweep grid generators, and the transient
step controller.  Go `float64` arithmetic is modelled by exact rationals `ℚ`;
a Go float division whose divisor is zero (which yields a non-finite IEEE
value) is modelled by `Option ℚ` with result `none`.
-/

namespace ToySpice

/-! ## Matrix stamp accumulation

`matrix.AddElement i j v` / `matrix.AddRHS i v` add contributions.  A stamp
call is modelled by the list of additions it performs, in source order; the
total added to an entry is the sum of the matching contributions (stamp order
is irrelevant to the total, as in the sparse kernel). -/

structure StampResult where
  mat : List (Nat × Nat × ℚ)
  rhs : List (Nat × ℚ)

/-- Total value added to matrix entry `(i, j)` by a stamp. -/
def matAdd (s : StampResult) (i j : Nat) : ℚ :=
  (s.mat.map (fun e => if e.1 = i ∧ e.2.1 = j then e.2.2 else 0)).sum

/-- Total value added to RHS entry `i` by a stamp. -/
def rhsAdd (s : StampResult) (i : Nat) : ℚ :=
  (s.rhs.map (fun e => if e.1 = i then e.2 else 0)).sum

/-! ## Inductor stamp, operating-point mode

From `src/pkg/device/inductor.go`, `(l *Inductor) Stamp`, branch
`case OperatingPointAnalysis`: incidence `±1` between non-ground node rows
and the branch row, then `matrix.AddElement(bIdx, bIdx, 1e3)`; no RHS. -/

def inductorStampOP (n1 n2 bIdx : Nat) : StampResult :=
  { mat :=
      (if n1 ≠ 0 then [(n1, bIdx, (1 : ℚ)), (bIdx, n1, 1)] else []) ++
      (if n2 ≠ 0 then [(n2, bIdx, (-1 : ℚ)), (bIdx, n2, -1)] else []) ++
      [(bIdx, bIdx, 1000)],
    rhs := [] }

/-! ## Operating-point result publication

From `src/pkg/analysis/op.go`, `(op *OperatingPoint) storeResults`: node
voltages are published as `V(name) = [solution[nodeIdx]]` for `nodeIdx > 0`,
branch currents as `I(name) = [solution[branchIdx]]` (NOT negated).
From `src/pkg/circuit/circuit.go`, `(c *Circuit) GetSolution`: the accessor
returns `I(name) = -matrixSolution[idx]` for branch rows. -/

def storeResults (nodeMap branchMap : List (String × Nat)) (solution : List ℚ) :
    List (String × List ℚ) :=
  ((nodeMap.filter (fun p => 0 < p.2)).map
      (fun p => ("V(" ++ p.1 ++ ")", [solution.getD p.2 0]))) ++
  (branchMap.map (fun p => ("I(" ++ p.1 ++ ")", [solution.getD p.2 0])))

/-- Branch-current part of `Circuit.GetSolution`. -/
def getSolutionBranch (branchMap : List (String × Nat)) (solution : List ℚ) :
    List (String × ℚ) :=
  branchMap.map (fun p => ("I(" ++ p.1 ++ ")", -(solution.getD p.2 0)))

/-! ## AC frequency grid, DEC sweep

From `src/unnamed/part_011`, `(ac *ACAnalysis) generateFrequencyPoints`,
case `"DEC"`: the code allocates `numPoints` entries, sets
`step := (log10 fStop - log10 fStart) / float64(numPoints-1)` and stores
`frequencies[i] = 10^(log10 fStart + i*step)`.  The embedding works at the
log10 level: `decExponents` is the list of exponents `e i` such that the
stored frequency is `10^(e i)`; equal log10 spacing of the stored
frequencies is exactly equal spacing of these exponents, and a frequency
lies in the first decade `[fStart, 10*fStart)` iff its exponent lies in
`[log10 fStart, log10 fStart + 1)`. -/

def decExponents (logStart logStop : ℚ) (numPoints : Nat) : List ℚ :=
  (List.range numPoints).map
    (fun (i : Nat) =>
      logStart + (i : ℚ) * ((logStop - logStart) / ((numPoints : ℚ) - 1)))

/-! ## DC sweep grid

From `src/unnamed/part_011`, `NewDCSweep`: per source the grid is built by
`for v := start; v <= stop; v += incr { sweep = append(sweep, v) }`.
The unbounded Go loop is embedded with an explicit fuel parameter; any fuel
exceeding `⌊(stop-start)/incr⌋` reproduces the loop exactly. -/

def dcSweepGrid : Nat → ℚ → ℚ → ℚ → List ℚ
  | 0, _, _, _ => []
  | fuel + 1, v, stop, incr =>
      if v ≤ stop then v :: dcSweepGrid fuel (v + incr) stop incr else []

/-! ## Newton-Raphson inner loop

From `src/pkg/analysis/anlysis.go`, `NewBaseAnalysis`: convergence defaults
`maxIter = 100`, `abstol = 1e-12`, `reltol = 1e-6`, `gmin = 1e-12`.
From `src/pkg/analysis/op.go`, `(op *OperatingPoint) doNRiter`: for each
iteration, clear/stamp/load-gmin/factor/solve produce a new solution vector;
from the second iteration on, convergence is checked against the previous
iterate for indices `1 ≤ i < len(solution)`.  The linear-algebra part is
abstracted as a function `solve : Nat → List ℚ` giving the solution produced
at each iteration index; the loop control and the convergence test are
embedded exactly. -/

structure Convergence where
  maxIter : Nat
  abstol : ℚ
  reltol : ℚ
  gmin : ℚ

def newBaseAnalysisConvergence : Convergence :=
  { maxIter := 100
    abstol := 1 / 1000000000000
    reltol := 1 / 1000000
    gmin := 1 / 1000000000000 }

/-- The convergence test of `doNRiter`: for `i` from 1 to `len-1`,
`|x_i - old_i| ≤ reltol*max(|x_i|, |old_i|) + abstol`. -/
def allConverged (conv : Convergence) (solution oldSolution : List ℚ) : Bool :=
  (List.range' 1 (solution.length - 1)).all
    (fun i => decide (|solution.getD i 0 - oldSolution.getD i 0| ≤
      conv.reltol * max |solution.getD i 0| |oldSolution.getD i 0| + conv.abstol))

def doNRiterAux (conv : Convergence) (solve : Nat → List ℚ) :
    Nat → Nat → Option (List ℚ) → Option (List ℚ × List ℚ)
  | 0, _, _ => none
  | fuel + 1, iter, old =>
    let solution := solve iter
    match old with
    | some o =>
        if allConverged conv solution o then some (solution, o)
        else doNRiterAux conv solve fuel (iter + 1) (some solution)
    | none => doNRiterAux conv solve fuel (iter + 1) (some solution)

/-- `doNRiter`: on success returns the last two iterates `(solution, old)`;
`none` models the "failed to converge in maxIter iterations" error. -/
def doNRiter (conv : Convergence) (solve : Nat → List ℚ) :
    Option (List ℚ × List ℚ) :=
  doNRiterAux conv solve conv.maxIter 0 none

/-! ## Transient step controller

From `src/pkg/analysis/tran.go`, `(tr *Transient) Execute`, one pass of the
outer time loop, with `trtol = 7.0` from `NewTransient`.  The Newton result
and the LTE value `calculateTruncError()` are abstracted as inputs `nrOk`
and `lte`; the clamping of the step to `stopTime`, the retry/halving logic,
the BE→TR switch and the step growth are embedded exactly. -/

inductive IntegMethod where
  | BE
  | TR
deriving DecidableEq

structure TranState where
  time : ℚ
  timeStep : ℚ
  minStep : ℚ
  maxStep : ℚ
  stopTime : ℚ
  method : IntegMethod
deriving DecidableEq

def trtol : ℚ := 7

inductive StepOutcome where
  | retry (halvedStep : ℚ)
  | fail
  | accept (st : TranState)
deriving DecidableEq

/-- `nextTime` after clamping to `stopTime` (lines `nextTime := tr.time +
tr.timeStep; if nextTime > tr.stopTime { nextTime = tr.stopTime ... }`). -/
def tranNextTime (st : TranState) : ℚ :=
  if st.stopTime < st.time + st.timeStep then st.stopTime
  else st.time + st.timeStep

/-- The effective step size after the clamp
(`tr.timeStep = nextTime - tr.time` when clamped). -/
def tranDt (st : TranState) : ℚ :=
  if st.stopTime < st.time + st.timeStep then st.stopTime - st.time
  else st.timeStep

/-- The BE→TR switch (`if methodState == device.BE && tr.time > 0 {
if lte < tr.trtol/10 { methodState = device.TR } }`). -/
def tranPromote (st : TranState) (lte : ℚ) : IntegMethod :=
  if st.method = IntegMethod.BE ∧ 0 < st.time ∧ lte < trtol / 10
  then IntegMethod.TR else st.method

/-- The step growth for the next step (factor 2 when `lte < trtol/100`,
factor 1.1 otherwise, capped at `maxStep`). -/
def tranDt2 (st : TranState) (lte : ℚ) : ℚ :=
  if tranNextTime st < st.stopTime ∧ tranDt st < st.maxStep then
    min (tranDt st * (if lte < trtol / 100 then 2 else 11 / 10)) st.maxStep
  else tranDt st

def tranStep (st : TranState) (nrOk : Bool) (lte : ℚ) : StepOutcome :=
  if ¬nrOk then
    if st.minStep < tranDt st then StepOutcome.retry (tranDt st / 2)
    else StepOutcome.fail
  else if trtol < lte ∧ st.minStep < tranDt st then
    StepOutcome.retry (tranDt st / 2)
  else
    StepOutcome.accept
      { st with
        time := tranNextTime st
        timeStep := tranDt2 st lte
        method := tranPromote st lte }

/-! ## Capacitor device state and stamps

From `src/unnamed/part_003` (the `github.com/edp1096` module variant of
`capacitor.go`): state fields `Value, Voltage0, Voltage1, current0,
current1, charge0, charge1, Tc1, Tc2, Tnom`; `NewCapacitor` zeroes the
state and sets `Tc1 = Tc2 = 0`, `Tnom = 300.15`. -/

structure CapState where
  Value : ℚ
  Voltage0 : ℚ
  Voltage1 : ℚ
  current0 : ℚ
  current1 : ℚ
  charge0 : ℚ
  charge1 : ℚ
  Tc1 : ℚ
  Tc2 : ℚ
  Tnom : ℚ
deriving DecidableEq

def newCapacitor (value : ℚ) : CapState :=
  { Value := value, Voltage0 := 0, Voltage1 := 0, current0 := 0,
    current1 := 0, charge0 := 0, charge1 := 0, Tc1 := 0, Tc2 := 0,
    Tnom := 6003 / 20 }

/-- `temperatureAdjustedValue`: `Value * (1 + Tc1*dT + Tc2*dT*dT)`. -/
def temperatureAdjustedValue (c : CapState) (temp : ℚ) : ℚ :=
  c.Value * (1 + c.Tc1 * (temp - c.Tnom) + c.Tc2 * (temp - c.Tnom) * (temp - c.Tnom))

/-- From `src/unnamed/part_003`, `(c *Capacitor) Stamp`, branch
`case TransientAnalysis`: `geq := adjustedC / dt`, `ceq := c.charge1 / dt`,
four-corner conductance on non-ground rows, `+ceq` to `b[n1]`, `-ceq` to
`b[n2]`. -/
def capStampTran (c : CapState) (n1 n2 : Nat) (dt temp : ℚ) : StampResult :=
  { mat :=
      (if n1 ≠ 0 then
        [(n1, n1, temperatureAdjustedValue c temp / dt)] ++
        (if n2 ≠ 0 then [(n1, n2, -(temperatureAdjustedValue c temp / dt))]
         else [])
       else []) ++
      (if n2 ≠ 0 then
        [(n2, n2, temperatureAdjustedValue c temp / dt)] ++
        (if n1 ≠ 0 then [(n2, n1, -(temperatureAdjustedValue c temp / dt))]
         else [])
       else []),
    rhs :=
      (if n1 ≠ 0 then [(n1, c.charge1 / dt)] else []) ++
      (if n2 ≠ 0 then [(n2, -(c.charge1 / dt))] else []) }

/-- From `src/unnamed/part_003`, `(c *Capacitor) UpdateState` (the variant
called by `Circuit.Update` after each accepted step): shifts `charge0` into
`charge1`, stores `Value * vd` as the new `charge0`, and shifts the
voltages. -/
def capUpdateState (c : CapState) (v1 v2 : ℚ) : CapState :=
  { c with
    charge1 := c.charge0
    charge0 := c.Value * (v1 - v2)
    Voltage1 := c.Voltage0
    Voltage0 := v1 - v2 }

/-- From `src/pkg/device/capacitor.go` (the `toy-spice` module variant),
`(c *Capacitor) Stamp`, branch `case TransientAnalysis`:
`geq := c.Value / dt`, `ceq := geq * c.Voltage0`. -/
def capStampTranOld (c : CapState) (n1 n2 : Nat) (dt : ℚ) : StampResult :=
  { mat :=
      (if n1 ≠ 0 then
        [(n1, n1, c.Value / dt)] ++
        (if n2 ≠ 0 then [(n1, n2, -(c.Value / dt))] else [])
       else []) ++
      (if n2 ≠ 0 then
        [(n2, n2, c.Value / dt)] ++
        (if n1 ≠ 0 then [(n2, n1, -(c.Value / dt))] else [])
       else []),
    rhs :=
      (if n1 ≠ 0 then [(n1, c.Value / dt * c.Voltage0)] else []) ++
      (if n2 ≠ 0 then [(n2, -(c.Value / dt * c.Voltage0))] else []) }

/-- From `src/pkg/device/capacitor.go`, `(c *Capacitor) UpdateState`, normal
(non-predict) mode.  The transient loop only calls it with `dt > 0`, so the
`ℚ` division is exact there. -/
def capUpdateStateOld (c : CapState) (v1 v2 dt : ℚ) : CapState :=
  { c with
    charge0 := c.charge1 + c.current1 * dt
    Voltage0 := v1 - v2
    current0 := c.Value * ((v1 - v2) - c.Voltage1) / dt }

/-! ## Capacitor LoadState

From `src/unnamed/part_003`, `(c *Capacitor) LoadState`:
`c.current0 = c.Value * (vd - c.Voltage0) / status.TimeStep`, with no guard
on `TimeStep`.  A Go float division with zero divisor produces a non-finite
value; this is modelled by `qdiv` returning `none`. -/

def qdiv (a b : ℚ) : Option ℚ :=
  if b = 0 then none else some (a / b)

def capLoadState (c : CapState) (v1 v2 dt : ℚ) : Option CapState :=
  match qdiv (c.Value * ((v1 - v2) - c.Voltage0)) dt with
  | none => none
  | some i => some { c with current0 := i }

/-- From `src/pkg/circuit/circuit.go`, `(c *Circuit) LoadState`: calls
`LoadState` on every time-dependent device with the shared `c.Status`,
unconditionally (no `dt > 0` guard exists in the flow). -/
def circuitLoadState (caps : List (CapState × ℚ × ℚ)) (dt : ℚ) :
    List (Option CapState) :=
  caps.map (fun x => capLoadState x.1 x.2.1 x.2.2 dt)

/-! ## DC sweep driver, source mutation and restoration

From `src/unnamed/part_011`, `(dc *DCSweep) singleSweep` / `nestedSweep`.
The device state visible to the sweep driver is the assignment of values to
source names, modelled as a function `String → ℚ`; `SetValue` is `setVal`.
Per grid point the driver sets the swept source and runs an operating-point
solve (which never calls `SetValue`; its success is abstracted by the `ok`
predicate).  On a convergence or stamping error the driver returns
immediately; the original value (captured by `Setup`) is restored only
after the last grid point. -/

def setVal (s : String → ℚ) (name : String) (v : ℚ) : String → ℚ :=
  fun n => if n = name then v else s n

def singleSweep (src : String) (orig : ℚ) (ok : ℚ → Bool) :
    (String → ℚ) → List ℚ → Except (ℚ × (String → ℚ)) (String → ℚ)
  | vals, [] => Except.ok (setVal vals src orig)
  | vals, v :: rest =>
      if ok v then singleSweep src orig ok (setVal vals src v) rest
      else Except.error (v, setVal vals src v)

def nestedSweepInner (src2 : String) (v1 : ℚ) (ok : ℚ → ℚ → Bool) :
    (String → ℚ) → List ℚ → Except (ℚ × ℚ × (String → ℚ)) (String → ℚ)
  | s, [] => Except.ok s
  | s, v2 :: rest =>
      if ok v1 v2 then nestedSweepInner src2 v1 ok (setVal s src2 v2) rest
      else Except.error (v1, v2, setVal s src2 v2)

def nestedSweepOuter (src1 src2 : String) (ok : ℚ → ℚ → Bool)
    (grid2 : List ℚ) :
    (String → ℚ) → List ℚ → Except (ℚ × ℚ × (String → ℚ)) (String → ℚ)
  | s, [] => Except.ok s
  | s, v1 :: rest =>
      match nestedSweepInner src2 v1 ok (setVal s src1 v1) grid2 with
      | Except.ok s2 => nestedSweepOuter src1 src2 ok grid2 s2 rest
      | Except.error e => Except.error e

def nestedSweep (vals : String → ℚ) (src1 src2 : String) (orig1 orig2 : ℚ)
    (ok : ℚ → ℚ → Bool) (grid1 grid2 : List ℚ) :
    Except (ℚ × ℚ × (String → ℚ)) (String → ℚ) :=
  match nestedSweepOuter src1 src2 ok grid2 vals grid1 with
  | Except.ok s => Except.ok (setVal (setVal s src1 orig1) src2 orig2)
  | Except.error e => Except.error e

/-! ### Claims C1 and C2 -/

/-- C1, counterexample to the claim as stated: with branch map `V1 ↦ 2` and
solution vector `[0, 0, 5]`, the operating-point analyzer publishes
`I(V1) = [5]`, the solution entry itself, whereas the claim requires the
negated entry `-5`. -/
theorem claim_C1_counterexample :
    storeResults [] [("V1", 2)] [0, 0, 5] = [("I(V1)", [(5 : ℚ)])] ∧
    (5 : ℚ) ≠ -([(0 : ℚ), 0, 5].getD 2 0) := by
  refine ⟨by decide, by norm_num⟩

/-- C1, amended: for every converged operating-point analysis and every device
with a branch row `bIdx`, `storeResults` publishes the result entry
`I(name) = [solution[bIdx]]` WITHOUT negation; the negated value
`-solution[bIdx]` is produced only by the separate accessor
`Circuit.GetSolution` (used by the transient and DC-sweep drivers). -/
theorem claim_C1_theorem (nodeMap branchMap : List (String × Nat))
    (solution : List ℚ) (p : String × Nat) (hp : p ∈ branchMap) :
    ("I(" ++ p.1 ++ ")", [solution.getD p.2 0]) ∈
      storeResults nodeMap branchMap solution ∧
    ("I(" ++ p.1 ++ ")", -(solution.getD p.2 0)) ∈
      getSolutionBranch branchMap solution := by
  constructor
  · exact List.mem_append_right _ (List.mem_map_of_mem _ hp)
  · exact List.mem_map_of_mem _ hp

/-- C1 witness: instantiation of `claim_C1_theorem` at the concrete branch map
`V1 ↦ 2` and solution `[0, 0, 5]`. -/
theorem claim_C1_witness :
    ("I(" ++ "V1" ++ ")", [([(0 : ℚ), 0, 5].getD 2 0)]) ∈
      storeResults [] [("V1", 2)] [0, 0, 5] ∧
    ("I(" ++ "V1" ++ ")", -([(0 : ℚ), 0, 5].getD 2 0)) ∈
      getSolutionBranch [("V1", 2)] [0, 0, 5] :=
  claim_C1_theorem [] [("V1", 2)] [0, 0, 5] ("V1", 2) (by decide)

/-- C2, counterexample to the claim as stated: the operating-point inductor
stamp at nodes 1, 2 with branch row 3 adds `1e3 = 1000` to the diagonal entry
`[bIdx, bIdx]`, which is not a small inductance of about `1e-3`. -/
theorem claim_C2_counterexample :
    matAdd (inductorStampOP 1 2 3) 3 3 = 1000 ∧
    (1000 : ℚ) ≠ 1 / 1000 ∧ ¬((1000 : ℚ) ≤ 1) := by
  refine ⟨by simp [inductorStampOP, matAdd], by norm_num, by norm_num⟩

/-- C2, amended: for every linear inductor stamped in operating-point mode
between non-ground nodes `n1`, `n2` with branch row `bIdx` (all rows
distinct), the stamp adds incidence entries `+1`/`-1` between the node rows
and `bIdx` in both orientations, adds `1e3` (not `1e-3`) to the diagonal
entry `[bIdx, bIdx]`, and adds nothing to the right-hand side. -/
theorem claim_C2_theorem (n1 n2 bIdx : Nat)
    (h1 : n1 ≠ 0) (h2 : n2 ≠ 0) (h12 : n1 ≠ n2)
    (hb1 : bIdx ≠ n1) (hb2 : bIdx ≠ n2) :
    matAdd (inductorStampOP n1 n2 bIdx) n1 bIdx = 1 ∧
    matAdd (inductorStampOP n1 n2 bIdx) bIdx n1 = 1 ∧
    matAdd (inductorStampOP n1 n2 bIdx) n2 bIdx = -1 ∧
    matAdd (inductorStampOP n1 n2 bIdx) bIdx n2 = -1 ∧
    matAdd (inductorStampOP n1 n2 bIdx) bIdx bIdx = 1000 ∧
    ∀ i, rhsAdd (inductorStampOP n1 n2 bIdx) i = 0 := by
  have h21 : n2 ≠ n1 := fun h => h12 h.symm
  have h1b : n1 ≠ bIdx := fun h => hb1 h.symm
  have h2b : n2 ≠ bIdx := fun h => hb2 h.symm
  refine ⟨?_, ?_, ?_, ?_, ?_, ?_⟩ <;>
    simp [inductorStampOP, matAdd, rhsAdd, h1, h2, h12, h21, hb1, hb2, h1b, h2b]

/-- C2 witness: instantiation of `claim_C2_theorem` at nodes 1, 2 and branch
row 3. -/
theorem claim_C2_witness :
    matAdd (inductorStampOP 1 2 3) 1 3 = 1 ∧
    matAdd (inductorStampOP 1 2 3) 3 1 = 1 ∧
    matAdd (inductorStampOP 1 2 3) 2 3 = -1 ∧
    matAdd (inductorStampOP 1 2 3) 3 2 = -1 ∧
    matAdd (inductorStampOP 1 2 3) 3 3 = 1000 ∧
    ∀ i, rhsAdd (inductorStampOP 1 2 3) i = 0 :=
  claim_C2_theorem 1 2 3 (by decide) (by decide) (by decide) (by decide)
    (by decide)

/-! ### Claims C3 and C5 -/

/-- The `i`-th generated DEC exponent, for `i < n`. -/
theorem decExponents_getD (logStart logStop : ℚ) (n i : Nat) (hi : i < n) :
    (decExponents logStart logStop n).getD i 0 =
      logStart + (i : ℚ) * ((logStop - logStart) / ((n : ℚ) - 1)) := by
  rw [decExponents, List.getD_eq_getElem?_getD, List.getElem?_map,
    List.getElem?_range hi]
  rfl

/-- C3, counterexample to the claim as stated: a DEC sweep over two decades
(`f_start = 1`, `f_stop = 100`, so `logStart = 0`, `logStop = 2`) with
`n = 4` generates the exponents `[0, 2/3, 4/3, 2]`: 4 points in total, of
which only the first 2 lie in the first decade (exponent in `[0, 1)`), so
the grid does not contain `n = 4` points per decade. -/
theorem claim_C3_counterexample :
    decExponents 0 2 4 = [0, 2 / 3, 4 / 3, 2] ∧
    (decExponents 0 2 4).length = 4 ∧
    ((0 : ℚ) < 1 ∧ (2 / 3 : ℚ) < 1 ∧ ¬((4 / 3 : ℚ) < 1) ∧ ¬((2 : ℚ) < 1)) ∧
    (2 : Nat) ≠ 4 := by
  refine ⟨?_, by simp [decExponents], by norm_num, by norm_num⟩
  norm_num [decExponents, List.range_succ]

/-- C3, amended: for every DEC sweep with `n ≥ 2` points, the generated grid
contains `n` points in total (not `n` per decade) spanning
`[f_start, f_stop]`, with equal spacing in log10 of frequency: the first
exponent is `log10 f_start`, the last is `log10 f_stop`, and consecutive
exponents differ by the constant `(log10 f_stop - log10 f_start)/(n-1)`. -/
theorem claim_C3_theorem (logStart logStop : ℚ) (n : Nat) (hn : 2 ≤ n) :
    (decExponents logStart logStop n).length = n ∧
    (decExponents logStart logStop n).getD 0 0 = logStart ∧
    (decExponents logStart logStop n).getD (n - 1) 0 = logStop ∧
    ∀ i, i + 1 < n →
      (decExponents logStart logStop n).getD (i + 1) 0 -
        (decExponents logStart logStop n).getD i 0 =
        (logStop - logStart) / ((n : ℚ) - 1) := by
  have hn0 : 0 < n := by omega
  have hne : ((n : ℚ) - 1) ≠ 0 := by
    have : (2 : ℚ) ≤ (n : ℚ) := by exact_mod_cast hn
    linarith
  refine ⟨by rw [decExponents, List.length_map, List.length_range], ?_, ?_, ?_⟩
  · rw [decExponents_getD _ _ _ _ hn0]; simp
  · rw [decExponents_getD _ _ _ _ (by omega)]
    have hcast : ((n - 1 : Nat) : ℚ) = (n : ℚ) - 1 := by
      have : (1 : Nat) ≤ n := by omega
      push_cast [this]; ring
    rw [hcast]
    field_simp
  · intro i hi
    rw [decExponents_getD _ _ _ _ hi, decExponents_getD _ _ _ _ (by omega)]
    push_cast
    ring

/-- C3 witness: instantiation of `claim_C3_theorem` at `logStart = 1`,
`logStop = 3`, `n = 3` (frequencies 10, 100, 1000). -/
theorem claim_C3_witness :
    (decExponents 1 3 3).length = 3 ∧
    (decExponents 1 3 3).getD 0 0 = 1 ∧
    (decExponents 1 3 3).getD (3 - 1) 0 = 3 ∧
    ∀ i, i + 1 < 3 →
      (decExponents 1 3 3).getD (i + 1) 0 - (decExponents 1 3 3).getD i 0 =
        (3 - 1) / ((3 : ℚ) - 1) :=
  claim_C3_theorem 1 3 3 (by decide)

/-- The sweep loop yields the empty list when the running value is already
past `stop`. -/
theorem dcSweepGrid_of_gt (fuel : Nat) (v stop incr : ℚ) (h : stop < v) :
    dcSweepGrid fuel v stop incr = [] := by
  cases fuel with
  | zero => rfl
  | succ f => simp [dcSweepGrid, not_le.mpr h]

/-- Length of the sweep loop under sufficient fuel. -/
theorem dcSweepGrid_length (fuel : Nat) :
    ∀ v stop incr : ℚ, v ≤ stop → 0 < incr →
      (⌊(stop - v) / incr⌋).toNat < fuel →
      (dcSweepGrid fuel v stop incr).length = (⌊(stop - v) / incr⌋).toNat + 1 := by
  induction fuel with
  | zero => intro v stop incr _ _ hf; omega
  | succ f ih =>
    intro v stop incr hv hi hf
    rw [dcSweepGrid, if_pos hv]
    have hk0 : 0 ≤ ⌊(stop - v) / incr⌋ :=
      Int.floor_nonneg.mpr (div_nonneg (by linarith) hi.le)
    rcases le_or_lt (v + incr) stop with hle | hgt
    · have hstep : (stop - (v + incr)) / incr = (stop - v) / incr - 1 := by
        field_simp
        ring
      have hfloor : ⌊(stop - (v + incr)) / incr⌋ = ⌊(stop - v) / incr⌋ - 1 := by
        rw [hstep, Int.floor_sub_one]
      have hk1 : 1 ≤ ⌊(stop - v) / incr⌋ := by
        apply Int.le_floor.mpr
        push_cast
        exact (le_div_iff₀ hi).mpr (by linarith)
      have hrec := ih (v + incr) stop incr hle hi (by omega)
      simp only [List.length_cons, hrec, hfloor]
      omega
    · rw [dcSweepGrid_of_gt f _ _ _ hgt]
      have hlt : (stop - v) / incr < 1 := (div_lt_one hi).mpr (by linarith)
      have : ⌊(stop - v) / incr⌋ = 0 := by
        apply Int.floor_eq_zero_iff.mpr
        constructor
        · exact div_nonneg (by linarith) hi.le
        · exact_mod_cast hlt
      simp [this]

/-- C5: for every DC sweep specification with `start ≤ stop` and positive
increment `incr`, the generated sweep grid contains exactly
`⌊(stop - start)/incr⌋ + 1` points (loop embedded with any sufficient
fuel). -/
theorem claim_C5_theorem (start stop incr : ℚ) (fuel : Nat)
    (h1 : start ≤ stop) (h2 : 0 < incr)
    (hf : (⌊(stop - start) / incr⌋).toNat < fuel) :
    (dcSweepGrid fuel start stop incr).length =
      (⌊(stop - start) / incr⌋).toNat + 1 :=
  dcSweepGrid_length fuel start stop incr h1 h2 hf

/-- C5 witness: sweep from 0 to 1 in steps of 2/5 gives
`⌊2.5⌋ + 1 = 3` points. -/
theorem claim_C5_witness :
    (dcSweepGrid 4 0 1 (2 / 5)).length = (⌊((1 : ℚ) - 0) / (2 / 5)⌋).toNat + 1 :=
  claim_C5_theorem 0 1 (2 / 5) 4 (by norm_num) (by norm_num) (by norm_num)

/-! ### Claim C7 -/

theorem doNRiterAux_zero (conv : Convergence) (solve : Nat → List ℚ)
    (iter : Nat) (old : Option (List ℚ)) :
    doNRiterAux conv solve 0 iter old = none := rfl

theorem doNRiterAux_succ_none (conv : Convergence) (solve : Nat → List ℚ)
    (fuel iter : Nat) :
    doNRiterAux conv solve (fuel + 1) iter none =
      doNRiterAux conv solve fuel (iter + 1) (some (solve iter)) := rfl

theorem doNRiterAux_succ_some (conv : Convergence) (solve : Nat → List ℚ)
    (fuel iter : Nat) (o : List ℚ) :
    doNRiterAux conv solve (fuel + 1) iter (some o) =
      if allConverged conv (solve iter) o then some (solve iter, o)
      else doNRiterAux conv solve fuel (iter + 1) (some (solve iter)) := rfl

/-- Any successful return of the Newton loop passed the convergence test. -/
theorem doNRiterAux_converged (conv : Convergence) (solve : Nat → List ℚ) :
    ∀ fuel iter old cur prev,
      doNRiterAux conv solve fuel iter old = some (cur, prev) →
      allConverged conv cur prev = true := by
  intro fuel
  induction fuel with
  | zero => intro iter old cur prev h; simp [doNRiterAux_zero] at h
  | succ f ih =>
    intro iter old cur prev h
    cases old with
    | none =>
      rw [doNRiterAux_succ_none] at h
      exact ih (iter + 1) _ cur prev h
    | some o =>
      rw [doNRiterAux_succ_some] at h
      by_cases hc : allConverged conv (solve iter) o = true
      · rw [if_pos hc] at h
        obtain ⟨h1, h2⟩ := Prod.mk.injEq .. ▸ Option.some.injEq .. ▸ h
        · subst h1; subst h2; exact hc
      · rw [if_neg hc] at h
        exact ih (iter + 1) _ cur prev h

/-- The Newton loop inspects only iteration indices below the fuel bound. -/
theorem doNRiterAux_congr (conv : Convergence) :
    ∀ fuel iter old (s1 s2 : Nat → List ℚ),
      (∀ k, iter ≤ k → k < iter + fuel → s1 k = s2 k) →
      doNRiterAux conv s1 fuel iter old = doNRiterAux conv s2 fuel iter old := by
  intro fuel
  induction fuel with
  | zero => intro iter old s1 s2 _; rfl
  | succ f ih =>
    intro iter old s1 s2 h
    have hit : s1 iter = s2 iter := h iter le_rfl (by omega)
    have hrest : ∀ k, iter + 1 ≤ k → k < iter + 1 + f → s1 k = s2 k :=
      fun k hk1 hk2 => h k (by omega) (by omega)
    cases old with
    | none =>
      rw [doNRiterAux_succ_none, doNRiterAux_succ_none, hit,
        ih (iter + 1) (some (s2 iter)) s1 s2 hrest]
    | some o =>
      rw [doNRiterAux_succ_some, doNRiterAux_succ_some, hit,
        ih (iter + 1) (some (s2 iter)) s1 s2 hrest]

/-- C7: with the defaults of `NewBaseAnalysis` (`reltol = 1e-6`,
`abstol = 1e-12`, `maxIter = 100`), whenever the Newton-Raphson inner loop
returns success, the last two iterates satisfy, for every index
`1 ≤ i < len`, `|x_i - x_prev_i| ≤ reltol*max(|x_i|, |x_prev_i|) + abstol`;
moreover the loop attempts at most `maxIter = 100` iterations (its result
depends only on the first 100 solve calls). -/
theorem claim_C7_theorem :
    newBaseAnalysisConvergence.maxIter = 100 ∧
    newBaseAnalysisConvergence.reltol = 1 / 1000000 ∧
    newBaseAnalysisConvergence.abstol = 1 / 1000000000000 ∧
    (∀ solve cur prev,
      doNRiter newBaseAnalysisConvergence solve = some (cur, prev) →
      ∀ i, 1 ≤ i → i < cur.length →
        |cur.getD i 0 - prev.getD i 0| ≤
          1 / 1000000 * max |cur.getD i 0| |prev.getD i 0| +
          1 / 1000000000000) ∧
    (∀ s1 s2 : Nat → List ℚ, (∀ k, k < 100 → s1 k = s2 k) →
      doNRiter newBaseAnalysisConvergence s1 =
        doNRiter newBaseAnalysisConvergence s2) := by
  refine ⟨rfl, rfl, rfl, ?_, ?_⟩
  · intro solve cur prev h i hi1 hi2
    have hc := doNRiterAux_converged newBaseAnalysisConvergence solve
      newBaseAnalysisConvergence.maxIter 0 none cur prev h
    have hmem : i ∈ List.range' 1 (cur.length - 1) :=
      List.mem_range'_1.mpr ⟨hi1, by omega⟩
    have := List.all_eq_true.mp hc i hmem
    exact of_decide_eq_true this
  · intro s1 s2 h
    have hmax : newBaseAnalysisConvergence.maxIter = 100 := rfl
    exact doNRiterAux_congr newBaseAnalysisConvergence
      newBaseAnalysisConvergence.maxIter 0 none s1 s2
      (fun k _ hk2 => h k (by omega))

/-- C7 witness: instantiation of `claim_C7_theorem` at the constant solve
sequence `[0, 5]`, which converges at the second iteration. -/
theorem claim_C7_witness :
    |([(0 : ℚ), 5].getD 1 0) - ([(0 : ℚ), 5].getD 1 0)| ≤
      1 / 1000000 * max |([(0 : ℚ), 5].getD 1 0)| |([(0 : ℚ), 5].getD 1 0)| +
      1 / 1000000000000 := by
  have hconv : allConverged newBaseAnalysisConvergence [0, 5] [0, 5] = true := by
    simp only [allConverged, newBaseAnalysisConvergence, List.range',
      List.all_cons, List.all_nil, Bool.and_true, decide_eq_true_eq]
    norm_num
  have hrun : doNRiter newBaseAnalysisConvergence (fun _ => [0, 5]) =
      some ([0, 5], [0, 5]) := by
    rw [doNRiter]
    rw [show newBaseAnalysisConvergence.maxIter = 99 + 1 from rfl]
    rw [doNRiterAux_succ_none]
    rw [show (99 : Nat) = 98 + 1 from rfl]
    rw [doNRiterAux_succ_some]
    exact if_pos hconv
  exact claim_C7_theorem.2.2.2.1 (fun _ => [0, 5]) [0, 5] [0, 5] hrun 1
    le_rfl (by norm_num)

/-! ### Claim C4 -/

/-- C4, counterexample to the claim as stated: a step computed with TR whose
LTE estimate `8` exceeds `trtol = 7` is nevertheless accepted when the step
size has reached `minStep` (the halving branch requires `timeStep > minStep`),
and the accepted state still carries method TR — no demotion to BE occurs
anywhere in the controller. -/
theorem claim_C4_counterexample :
    tranStep
        { time := 1, timeStep := 1 / 100, minStep := 1 / 100, maxStep := 1,
          stopTime := 2, method := IntegMethod.TR } true 8 =
      StepOutcome.accept
        { time := 101 / 100, timeStep := 11 / 1000, minStep := 1 / 100,
          maxStep := 1, stopTime := 2, method := IntegMethod.TR } ∧
    trtol < 8 ∧ IntegMethod.TR ≠ IntegMethod.BE := by
  refine ⟨?_, by norm_num [trtol], by decide⟩
  norm_num [tranStep, tranNextTime, tranDt, tranDt2, tranPromote, trtol, min_def]

/-- C4, amended: the transient controller of `tran.go` never demotes the
integration method: an accepted step leaves the method unchanged except for
the sole BE→TR promotion (taken when the method is BE, `time > 0` and
`lte < trtol/10`).  In particular a step accepted under TR — even one whose
LTE exceeds `trtol`, accepted because the step size is already at `minStep`
— keeps the method TR for the following steps. -/
theorem claim_C4_theorem (st : TranState) (nrOk : Bool) (lte : ℚ)
    (st2 : TranState)
    (hacc : tranStep st nrOk lte = StepOutcome.accept st2) :
    st2.method = st.method ∨
      (st.method = IntegMethod.BE ∧ st2.method = IntegMethod.TR) := by
  unfold tranStep at hacc
  split at hacc
  · split at hacc <;> exact absurd hacc (by simp)
  · split at hacc
    · exact absurd hacc (by simp)
    · injection hacc with h
      subst h
      by_cases hp : st.method = IntegMethod.BE ∧ 0 < st.time ∧ lte < trtol / 10
      · right
        refine ⟨hp.1, ?_⟩
        show tranPromote st lte = IntegMethod.TR
        rw [tranPromote, if_pos hp]
      · left
        show tranPromote st lte = st.method
        rw [tranPromote, if_neg hp]

/-- C4 witness: instantiation of `claim_C4_theorem` at the concrete TR state
accepted at `minStep` with `lte = 8`. -/
theorem claim_C4_witness :
    ({ time := 101 / 100, timeStep := 11 / 1000, minStep := 1 / 100,
        maxStep := 1, stopTime := 2,
        method := IntegMethod.TR } : TranState).method =
      ({ time := 1, timeStep := 1 / 100, minStep := 1 / 100, maxStep := 1,
          stopTime := 2, method := IntegMethod.TR } : TranState).method ∨
    (({ time := 1, timeStep := 1 / 100, minStep := 1 / 100, maxStep := 1,
        stopTime := 2, method := IntegMethod.TR } : TranState).method =
        IntegMethod.BE ∧
      ({ time := 101 / 100, timeStep := 11 / 1000, minStep := 1 / 100,
          maxStep := 1, stopTime := 2,
          method := IntegMethod.TR } : TranState).method = IntegMethod.TR) :=
  claim_C4_theorem
    { time := 1, timeStep := 1 / 100, minStep := 1 / 100, maxStep := 1,
      stopTime := 2, method := IntegMethod.TR } true 8
    { time := 101 / 100, timeStep := 11 / 1000, minStep := 1 / 100,
      maxStep := 1, stopTime := 2, method := IntegMethod.TR }
    (by norm_num [tranStep, tranNextTime, tranDt, tranDt2, tranPromote, trtol, min_def])

/-! ### Claim C6 -/

/-- C6, counterexample to the claim as stated: take a fresh 1 F capacitor
between nodes 1 and 2 and accept one transient solution with `v_prev = 2`
(so the charge from the previously accepted solution is `q_prev = C·v_prev
= 2`).  The next stamp with `dt = 1` (at `temp = Tnom`) adds `charge1/dt
= 0` to `b[n1]`, not `q_prev/dt = 2`: the stored `charge1` lags one
accepted step behind the previously accepted solution. -/
theorem claim_C6_counterexample :
    rhsAdd (capStampTran (capUpdateState (newCapacitor 1) 2 0) 1 2 1 (6003 / 20)) 1 = 0 ∧
    (capUpdateState (newCapacitor 1) 2 0).Voltage0 = 2 ∧
    (capUpdateState (newCapacitor 1) 2 0).Value *
      (capUpdateState (newCapacitor 1) 2 0).Voltage0 / 1 = 2 ∧
    (0 : ℚ) ≠ 2 := by
  refine ⟨?_, by norm_num [capUpdateState, newCapacitor], ?_, by norm_num⟩
  · norm_num [capStampTran, capUpdateState, newCapacitor, rhsAdd]
  · norm_num [capUpdateState, newCapacitor]

/-- C6, amended: in the `part_003` variant, the transient capacitor stamp
between non-ground nodes adds `Geq = C/dt` in the four-corner pattern
(`C` temperature-adjusted; equal to the nominal value with the default
`Tc1 = Tc2 = 0`) and adds `Ieq = charge1/dt` to `b[n1]` and `-Ieq` to
`b[n2]` — where `charge1` is the stored charge of the solution accepted
BEFORE the previous one (`UpdateState` shifts `charge0 = C·v_prev` into
`charge1` only at the NEXT accepted step), not `C·v_prev/dt` as claimed.
The older `capacitor.go` variant does stamp `Ieq = (C/dt)·v_prev` with
`v_prev = Voltage0`, the previously accepted differential voltage, exactly
as the claim states. -/
theorem claim_C6_theorem (c : CapState) (n1 n2 : Nat) (dt temp v1 v2 : ℚ)
    (h1 : n1 ≠ 0) (h2 : n2 ≠ 0) (h12 : n1 ≠ n2)
    (hTc1 : c.Tc1 = 0) (hTc2 : c.Tc2 = 0) :
    matAdd (capStampTran c n1 n2 dt temp) n1 n1 = c.Value / dt ∧
    matAdd (capStampTran c n1 n2 dt temp) n2 n2 = c.Value / dt ∧
    matAdd (capStampTran c n1 n2 dt temp) n1 n2 = -(c.Value / dt) ∧
    matAdd (capStampTran c n1 n2 dt temp) n2 n1 = -(c.Value / dt) ∧
    rhsAdd (capStampTran c n1 n2 dt temp) n1 = c.charge1 / dt ∧
    rhsAdd (capStampTran c n1 n2 dt temp) n2 = -(c.charge1 / dt) ∧
    (capUpdateState c v1 v2).charge1 = c.charge0 ∧
    (capUpdateState c v1 v2).charge0 = c.Value * (v1 - v2) ∧
    (capUpdateState c v1 v2).Voltage0 = v1 - v2 ∧
    matAdd (capStampTranOld c n1 n2 dt) n1 n1 = c.Value / dt ∧
    rhsAdd (capStampTranOld c n1 n2 dt) n1 = c.Value / dt * c.Voltage0 ∧
    rhsAdd (capStampTranOld c n1 n2 dt) n2 = -(c.Value / dt * c.Voltage0) ∧
    (capUpdateStateOld c v1 v2 dt).Voltage0 = v1 - v2 := by
  have h21 : n2 ≠ n1 := fun h => h12 h.symm
  have hadj : temperatureAdjustedValue c temp = c.Value := by
    simp [temperatureAdjustedValue, hTc1, hTc2]
  refine ⟨?_, ?_, ?_, ?_, ?_, ?_, rfl, rfl, rfl, ?_, ?_, ?_, rfl⟩ <;>
    simp [capStampTran, capStampTranOld, matAdd, rhsAdd, hadj,
      h1, h2, h12, h21]

/-- C6 witness: instantiation of `claim_C6_theorem` at a fresh 1 F capacitor
between nodes 1 and 2 with `dt = 1`. -/
theorem claim_C6_witness :
    matAdd (capStampTran (newCapacitor 1) 1 2 1 0) 1 1 =
      (newCapacitor 1).Value / 1 :=
  (claim_C6_theorem (newCapacitor 1) 1 2 1 0 2 0 (by decide) (by decide)
    (by decide) rfl rfl).1

/-! ### Claim C9 -/

/-- C9: `Capacitor.LoadState` divides by `status.TimeStep` with no guard:
invoked with `TimeStep = 0` the computed current is a division by zero
(modelled as `none`); with any nonzero `dt` it computes
`C·(vd - Voltage0)/dt`; and `Circuit.LoadState` invokes it on every
time-dependent device unconditionally, so with `TimeStep = 0` every
capacitor's computed current is a division by zero. -/
theorem claim_C9_theorem (c : CapState) (v1 v2 dt : ℚ) :
    (dt = 0 → capLoadState c v1 v2 dt = none) ∧
    (dt ≠ 0 → capLoadState c v1 v2 dt =
      some { c with current0 := c.Value * ((v1 - v2) - c.Voltage0) / dt }) ∧
    (∀ caps : List (CapState × ℚ × ℚ),
      ∀ r ∈ circuitLoadState caps 0, r = none) := by
  refine ⟨?_, ?_, ?_⟩
  · intro h
    simp [capLoadState, qdiv, h]
  · intro h
    simp [capLoadState, qdiv, h]
  · intro caps r hr
    obtain ⟨x, _, hx⟩ := List.mem_map.mp hr
    rw [← hx]
    simp [capLoadState, qdiv]

/-- C9 witness: instantiation of `claim_C9_theorem` at a fresh 1 F
capacitor with `v1 = 1`, `v2 = 0`, `dt = 0`. -/
theorem claim_C9_witness :
    capLoadState (newCapacitor 1) 1 0 0 = none :=
  (claim_C9_theorem (newCapacitor 1) 1 0 0).1 rfl

/-! ### Claims C8 and C10 -/

theorem singleSweep_nil (src : String) (orig : ℚ) (ok : ℚ → Bool)
    (vals : String → ℚ) :
    singleSweep src orig ok vals [] = Except.ok (setVal vals src orig) := rfl

theorem singleSweep_cons (src : String) (orig : ℚ) (ok : ℚ → Bool)
    (vals : String → ℚ) (v : ℚ) (rest : List ℚ) :
    singleSweep src orig ok vals (v :: rest) =
      if ok v then singleSweep src orig ok (setVal vals src v) rest
      else Except.error (v, setVal vals src v) := rfl

/-- When every grid point converges, the single sweep succeeds and its final
state is the input state with the swept source set to `orig`. -/
theorem singleSweep_allOk (src : String) (orig : ℚ) (ok : ℚ → Bool) :
    ∀ (grid : List ℚ) (vals : String → ℚ), (∀ v ∈ grid, ok v = true) →
      singleSweep src orig ok vals grid =
        Except.ok (fun n => if n = src then orig else vals n) := by
  intro grid
  induction grid with
  | nil => intro vals _; rfl
  | cons v rest ih =>
    intro vals h
    rw [singleSweep_cons, if_pos (h v (by simp)),
      ih (setVal vals src v) (fun w hw => h w (by simp [hw]))]
    congr 1
    funext n
    by_cases hn : n = src <;> simp [setVal, hn]

theorem nestedSweepInner_nil (src2 : String) (v1 : ℚ) (ok : ℚ → ℚ → Bool)
    (s : String → ℚ) :
    nestedSweepInner src2 v1 ok s [] = Except.ok s := rfl

theorem nestedSweepInner_cons (src2 : String) (v1 : ℚ) (ok : ℚ → ℚ → Bool)
    (s : String → ℚ) (v2 : ℚ) (rest : List ℚ) :
    nestedSweepInner src2 v1 ok s (v2 :: rest) =
      if ok v1 v2 then nestedSweepInner src2 v1 ok (setVal s src2 v2) rest
      else Except.error (v1, v2, setVal s src2 v2) := rfl

/-- When every inner grid point converges, the inner loop succeeds and
touches only the inner source. -/
theorem nestedSweepInner_allOk (src2 : String) (v1 : ℚ) (ok : ℚ → ℚ → Bool) :
    ∀ (grid2 : List ℚ) (s : String → ℚ), (∀ v2 ∈ grid2, ok v1 v2 = true) →
      ∃ s2, nestedSweepInner src2 v1 ok s grid2 = Except.ok s2 ∧
        ∀ n, n ≠ src2 → s2 n = s n := by
  intro grid2
  induction grid2 with
  | nil => intro s _; exact ⟨s, rfl, fun n _ => rfl⟩
  | cons v2 rest ih =>
    intro s h
    obtain ⟨s2, hs2, hf⟩ := ih (setVal s src2 v2)
      (fun w hw => h w (by simp [hw]))
    refine ⟨s2, ?_, fun n hn => ?_⟩
    · rw [nestedSweepInner_cons, if_pos (h v2 (by simp)), hs2]
    · rw [hf n hn]
      simp [setVal, hn]

theorem nestedSweepOuter_nil (src1 src2 : String) (ok : ℚ → ℚ → Bool)
    (grid2 : List ℚ) (s : String → ℚ) :
    nestedSweepOuter src1 src2 ok grid2 s [] = Except.ok s := rfl

theorem nestedSweepOuter_cons (src1 src2 : String) (ok : ℚ → ℚ → Bool)
    (grid2 : List ℚ) (s : String → ℚ) (v1 : ℚ) (rest : List ℚ) :
    nestedSweepOuter src1 src2 ok grid2 s (v1 :: rest) =
      match nestedSweepInner src2 v1 ok (setVal s src1 v1) grid2 with
      | Except.ok s2 => nestedSweepOuter src1 src2 ok grid2 s2 rest
      | Except.error e => Except.error e := rfl

/-- When every grid point converges, the outer loop succeeds and touches
only the two swept sources. -/
theorem nestedSweepOuter_allOk (src1 src2 : String) (ok : ℚ → ℚ → Bool)
    (grid2 : List ℚ) :
    ∀ (grid1 : List ℚ) (s : String → ℚ),
      (∀ v1 ∈ grid1, ∀ v2 ∈ grid2, ok v1 v2 = true) →
      ∃ s2, nestedSweepOuter src1 src2 ok grid2 s grid1 = Except.ok s2 ∧
        ∀ n, n ≠ src1 → n ≠ src2 → s2 n = s n := by
  intro grid1
  induction grid1 with
  | nil => intro s _; exact ⟨s, rfl, fun n _ _ => rfl⟩
  | cons v1 rest ih =>
    intro s h
    obtain ⟨sInner, hsInner, hfInner⟩ :=
      nestedSweepInner_allOk src2 v1 ok grid2 (setVal s src1 v1)
        (h v1 (by simp))
    obtain ⟨s2, hs2, hf2⟩ := ih sInner (fun w hw => h w (by simp [hw]))
    refine ⟨s2, ?_, fun n hn1 hn2 => ?_⟩
    · rw [nestedSweepOuter_cons, hsInner]
      exact hs2
    · rw [hf2 n hn1 hn2, hfInner n hn2]
      simp [setVal, hn1]

/-- C8: for every DC sweep that runs to completion (every grid point
converges), the final state of the source values equals the pre-sweep
state: each swept source is restored to its original (the value captured by
`Setup`), and no other source value touched by the sweep driver is
modified.  Both the single and the nested sweep are covered. -/
theorem claim_C8_theorem (vals : String → ℚ) (src : String) (ok : ℚ → Bool)
    (grid : List ℚ) (hok : ∀ v ∈ grid, ok v = true)
    (vals2 : String → ℚ) (src1 src2 : String) (ok2 : ℚ → ℚ → Bool)
    (grid1 grid2 : List ℚ)
    (hok2 : ∀ v1 ∈ grid1, ∀ v2 ∈ grid2, ok2 v1 v2 = true) :
    (∃ s, singleSweep src (vals src) ok vals grid = Except.ok s ∧
      ∀ n, s n = vals n) ∧
    (∃ s, nestedSweep vals2 src1 src2 (vals2 src1) (vals2 src2) ok2
        grid1 grid2 = Except.ok s ∧
      ∀ n, s n = vals2 n) := by
  constructor
  · refine ⟨_, singleSweep_allOk src (vals src) ok grid vals hok, fun n => ?_⟩
    by_cases hn : n = src <;> simp [hn]
  · obtain ⟨s2, hs2, hf2⟩ :=
      nestedSweepOuter_allOk src1 src2 ok2 grid2 grid1 vals2 hok2
    refine ⟨setVal (setVal s2 src1 (vals2 src1)) src2 (vals2 src2), ?_,
      fun n => ?_⟩
    · rw [nestedSweep, hs2]
    · by_cases hn2 : n = src2
      · simp [setVal, hn2]
      · by_cases hn1 : n = src1
        · subst hn1
          simp [setVal, hn2]
        · simp [setVal, hn1, hn2, hf2 n hn1 hn2]

/-- C8 witness: instantiation of `claim_C8_theorem` at the constant state
`vals = 3`, sweeping `V1` (and nested `V1`, `V2`) over all-converging
grids. -/
theorem claim_C8_witness :
    (∃ s, singleSweep "V1" ((fun _ => (3 : ℚ)) "V1") (fun _ => true)
        (fun _ => (3 : ℚ)) [0, 1] = Except.ok s ∧
      ∀ n, s n = (fun _ => (3 : ℚ)) n) ∧
    (∃ s, nestedSweep (fun _ => (3 : ℚ)) "V1" "V2"
        ((fun _ => (3 : ℚ)) "V1") ((fun _ => (3 : ℚ)) "V2")
        (fun _ _ => true) [0, 1] [0, 1] = Except.ok s ∧
      ∀ n, s n = (fun _ => (3 : ℚ)) n) :=
  claim_C8_theorem (fun _ => 3) "V1" (fun _ => true) [0, 1]
    (fun _ _ => rfl) (fun _ => 3) "V1" "V2" (fun _ _ => true) [0, 1] [0, 1]
    (fun _ _ _ _ => rfl)

/-- C10: if a single-source DC sweep aborts with an error because some
sweep point fails to converge, the swept voltage source is left holding the
failing sweep value: the error state assigns the failing grid value to the
source, that value did fail, and it belongs to the grid (restoration runs
only on the success path). -/
theorem claim_C10_theorem (src : String) (orig : ℚ) (ok : ℚ → Bool) :
    ∀ (grid : List ℚ) (vals : String → ℚ) (v : ℚ) (s : String → ℚ),
      singleSweep src orig ok vals grid = Except.error (v, s) →
      s src = v ∧ ok v = false ∧ v ∈ grid := by
  intro grid
  induction grid with
  | nil => intro vals v s h; simp [singleSweep_nil] at h
  | cons w rest ih =>
    intro vals v s h
    rw [singleSweep_cons] at h
    by_cases hw : ok w = true
    · rw [if_pos hw] at h
      obtain ⟨hs, hf, hm⟩ := ih (setVal vals src w) v s h
      exact ⟨hs, hf, by simp [hm]⟩
    · rw [if_neg hw] at h
      obtain ⟨hv, hs⟩ := Prod.mk.injEq .. ▸ Except.error.injEq .. ▸ h
      subst hv
      subst hs
      exact ⟨by simp [setVal], by simpa using hw, by simp⟩

/-- C10 witness: sweeping `V1` from the state `vals = 7` over the grid
`[0, 1, 2]` with convergence only below 1 aborts at the value 1 and leaves
the source holding 1. -/
theorem claim_C10_witness :
    (setVal (setVal (fun _ => (7 : ℚ)) "V1" 0) "V1" 1) "V1" = 1 ∧
    (fun v : ℚ => decide (v < 1)) 1 = false ∧
    (1 : ℚ) ∈ [(0 : ℚ), 1, 2] :=
  claim_C10_theorem "V1" 7 (fun v => decide (v < 1)) [0, 1, 2]
    (fun _ => 7) 1 (setVal (setVal (fun _ => (7 : ℚ)) "V1" 0) "V1" 1)
    (by norm_num [singleSweep_cons, singleSweep_nil])

end ToySpice
